import Mathlib

/-!
# Verification of the NewBot wallet-loading core

Shallow embedding of `wallet_utils.py`, `wallet_utilsmac.py` and the parts of
the solders library they call, together with proofs about the embedded
functions.

## Modelling choices

* The filesystem is a value: a list of existing directory paths plus a list of
  `(path, parsed JSON content)` pairs.  Paths are plain strings using `/` as
  the separator, as produced by `pathlib` on POSIX.
* `json.loads` of a file is modelled by the `JsonContent` the file carries:
  either the parse fails, or it yields a non-array value, or an array with a
  non-integer element (on which Python's `bytes()` raises `TypeError`), or an
  array of integers.
* Python exceptions are modelled by `Except LoadError`; the messages the code
  formats itself (`Invalid key file format ...`, `Unexpected secret key
  length ...`) are reproduced exactly, messages raised inside external
  libraries (json, bytes, solders) are modelled by representative fixed text.
* String predicates (`startswith`, `endswith`, path splitting) are modelled on
  the character list `String.data`, which is exactly Python's per-character
  semantics.
* `sorted()` over `pathlib` paths is modelled with the component-wise order
  (paths compare by their parts tuples, not by their raw strings), and glob
  matching follows `pathlib`: no special treatment of hidden entries.
-/

namespace NewBot

/-- Result of `json.loads` on a wallet file, as far as the loader can
distinguish outcomes: the text may fail to parse, parse to a non-array value,
parse to an array containing a non-integer element (so `bytes(raw)` raises
`TypeError`), or parse to an array of integers. -/
inductive JsonContent where
  | parseError : JsonContent
  | notArray : JsonContent
  | arrayNonInt : JsonContent
  | array : List Int → JsonContent
deriving DecidableEq, Repr

/-- The exceptions `load_keypair_from_json` can raise, one constructor per
`raise` site reachable from it (including those inside library calls). -/
inductive LoadError where
  /-- `path.read_text` raises `FileNotFoundError` (wallet_utils.py line 51). -/
  | fileNotFound : String → LoadError
  /-- `json.loads` raises `json.JSONDecodeError` (line 51). -/
  | jsonError : String → LoadError
  /-- the parsed value is not a list (lines 54-55). -/
  | invalidFormat : String → LoadError
  /-- `bytes(raw)` raises `TypeError` or `ValueError` (line 59): an element is
  not an integer or lies outside `[0, 255]`. -/
  | bytesError : String → LoadError
  /-- the explicit length check fails (lines 64-68). -/
  | invalidLength : Nat → String → LoadError
  /-- `Keypair.from_bytes` raises (line 72): solders accepts only 64 bytes. -/
  | fromBytesError : String → LoadError
  /-- the macOS variant's explicit existence check fails
  (wallet_utilsmac.py lines 39-40). -/
  | macFileNotFound : String → LoadError
deriving DecidableEq, Repr

/-- A `solders.keypair.Keypair` reconstructed by `Keypair.from_bytes`: it
stores the 64 raw bytes (32-byte seed followed by the 32-byte public key). -/
structure SolKeypair where
  bytes : List Nat
deriving DecidableEq, Repr

/-- The filesystem state seen by the loaders: the directories that exist and
the files that exist with their parsed JSON content. -/
structure FileSystem where
  dirs : List String
  files : List (String × JsonContent)
deriving DecidableEq, Repr

/-- Reading a file: `path.read_text` followed by `json.loads`, `none` when the
path does not exist. -/
def readFile (fs : FileSystem) (p : String) : Option JsonContent :=
  (fs.files.find? (fun f => f.1 == p)).map (fun f => f.2)

/-- `Path.exists()`: true for an existing directory or an existing file. -/
def fsExists (fs : FileSystem) (p : String) : Bool :=
  fs.dirs.contains p || (readFile fs p).isSome

/-- Python `s.startswith(pre)`, on the character lists. -/
def pyStartsWith (s pre : String) : Bool :=
  pre.data.isPrefixOf s.data

/-- Python `s.endswith(suf)`, on the character lists. -/
def pyEndsWith (s suf : String) : Bool :=
  suf.data.isSuffixOf s.data

/-- Split a character list on a separator character; always returns a
non-empty list of components (the model of splitting a path on `/`). -/
def splitOnChar (sep : Char) : List Char → List (List Char)
  | [] => [[]]
  | c :: cs =>
    match splitOnChar sep cs with
    | [] => [[c]]
    | h :: t => if c = sep then [] :: h :: t else (c :: h) :: t

/-- True when a component matches the glob component `*.json`: `pathlib`
matches components by `fnmatch`-style translation with no special casing of
leading dots (hidden files are matched, and `**` enters hidden directories),
so a component matches exactly when it ends with `.json`. -/
def jsonName (n : List Char) : Bool :=
  ".json".data.isSuffixOf n

/-- Membership of a file path in `base.glob("**/*.json")` (wallet_utils.py
line 114 / 169): the path lies strictly under `d` and its last component
matches `*.json`. -/
def isCandidate (d p : String) : Bool :=
  (d.data ++ ['/']).isPrefixOf p.data &&
    jsonName ((splitOnChar '/' (p.data.drop (d.data.length + 1))).getLastD [])

/-- The unsorted candidate set of `base.glob("**/*.json")`: the existing files
whose path matches the pattern under `d`. -/
def candidatePaths (fs : FileSystem) (d : String) : List String :=
  (fs.files.map Prod.fst).filter (isCandidate d)

/-- Lexicographic comparison of lists from a strict comparison of their
elements: the first unequal element decides, and a list precedes its
extensions.  This is how Python compares lists and tuples. -/
def lexLe {α : Type} [DecidableEq α] (lt : α → α → Bool) : List α → List α → Bool
  | [], _ => true
  | _ :: _, [] => false
  | a :: as, b :: bs => if a = b then lexLe lt as bs else lt a b

/-- Python string comparison `x < y` on the character lists: compare the
first differing character by code point; a string precedes its
extensions. -/
def charsLt : List Char → List Char → Bool
  | [], [] => false
  | [], _ :: _ => true
  | _ :: _, [] => false
  | a :: as, b :: bs => if a = b then charsLt as bs else decide (a < b)

/-- `pathlib` paths order themselves component-wise: comparing two paths
compares their parts tuples as Python tuples of strings, so `w/a/x.json`
sorts before `w/a.b/c.json` even though the raw strings compare the other
way around (`.` lies below `/` in code-point order). -/
def pathLe (a b : String) : Bool :=
  lexLe charsLt (splitOnChar '/' a.data) (splitOnChar '/' b.data)

/-- `sorted(base.glob("**/*.json"))`, under the component-wise path order. -/
def sortedCandidates (fs : FileSystem) (d : String) : List String :=
  List.insertionSort (fun a b => pathLe a b = true) (candidatePaths fs d)

/-- Models solders `Keypair.from_bytes`: the underlying ed25519 keypair
reconstruction accepts exactly `KEYPAIR_LENGTH = 64` bytes (a 32-byte seed
needs `Keypair.from_seed` instead), so any other length raises.  Whether the
public half decodes to a valid curve point is abstracted away: every 64-byte
input counts as valid here, and the claims quantify over valid inputs. -/
def keypairFromBytes (b : List Nat) : Option SolKeypair :=
  if b.length = 64 then some ⟨b⟩ else none

/-- The public-key bytes of a keypair: bytes 32..63. -/
def pubkeyBytes (kp : SolKeypair) : List Nat :=
  kp.bytes.drop 32

/-- Decimal rendering of the public-key bytes, standing for base58. -/
def renderBytes : List Nat → String
  | [] => ""
  | n :: bs => toString n ++ "." ++ renderBytes bs

/-- Models `str(kp.pubkey())`, the base58 rendering of the public-key bytes.
The exact base58 alphabet is irrelevant to every claim; like base58, this
rendering is a deterministic function of the bytes and never begins with the
character `<` of the error marker. -/
def pubkeyStr (kp : SolKeypair) : String :=
  "pk" ++ renderBytes (pubkeyBytes kp)

/-- The message of each modelled exception.  `invalidFormat` and
`invalidLength` reproduce the f-strings at wallet_utils.py lines 55 and 66-68
exactly; the library-raised messages are representative fixed text. -/
def errMsg : LoadError → String
  | .fileNotFound p => "[Errno 2] No such file or directory: " ++ p
  | .jsonError _ => "Expecting value: line 1 column 1 (char 0)"
  | .invalidFormat p => "Invalid key file format (expected array): " ++ p
  | .bytesError _ => "bytes must be in range(0, 256)"
  | .invalidLength n p => "Unexpected secret key length " ++ toString n ++ " in " ++ p
  | .fromBytesError _ => "signature error: Cannot decompress Edwards point"
  | .macFileNotFound p => "Wallet file not found: " ++ p

/-- The decode pipeline shared by both modules once the file content is in
hand (wallet_utils.py lines 54-72 = wallet_utilsmac.py lines 44-54):
type check, `bytes(raw)`, length check, `Keypair.from_bytes`. -/
def decodeContent (c : JsonContent) (path : String) : Except LoadError SolKeypair :=
  match c with
  | .parseError => .error (.jsonError path)
  | .notArray => .error (.invalidFormat path)
  | .arrayNonInt => .error (.bytesError path)
  | .array raw =>
    if raw.all (fun i => 0 ≤ i && i < 256) then
      let secretKeyBytes := raw.map Int.toNat
      if secretKeyBytes.length = 64 || secretKeyBytes.length = 32 then
        match keypairFromBytes secretKeyBytes with
        | some kp => .ok kp
        | none => .error (.fromBytesError path)
      else .error (.invalidLength secretKeyBytes.length path)
    else .error (.bytesError path)

/-- `wallet_utils.load_keypair_from_json` (lines 22-72): read the file, parse,
validate, build the keypair; any raised exception becomes an `error`. -/
def load_keypair_from_json (fs : FileSystem) (jsonPath : String) :
    Except LoadError SolKeypair :=
  match readFile fs jsonPath with
  | none => .error (.fileNotFound jsonPath)
  | some c => decodeContent c jsonPath

/-- Whether loading a given file succeeds. -/
def loadOk (fs : FileSystem) (p : String) : Bool :=
  match load_keypair_from_json fs p with
  | .ok _ => true
  | .error _ => false

/-- The error marker format of `list_public_keys_with_paths` (line 179):
`f"<error: {exc}>"`. -/
def errEntry (e : LoadError) : String :=
  "<error: " ++ errMsg e ++ ">"

/-- An entry value carries an error marker rather than a public key exactly
when it begins with `<error: ` (the discrimination main.py's docstring
example uses). -/
def isErrMarker (s : String) : Bool :=
  pyStartsWith s "<error: "

/-- The loop body of `list_public_keys_with_paths` (lines 170-179) for one
candidate file: a `(path, pubkey)` pair on success, a `(path, error marker)`
pair on any exception. -/
def entryOf (fs : FileSystem) (p : String) : String × String :=
  match load_keypair_from_json fs p with
  | .ok kp => (p, pubkeyStr kp)
  | .error e => (p, errEntry e)

/-- `wallet_utils.list_public_keys_with_paths` (lines 126-181): empty result
for a missing directory, otherwise one entry per sorted glob candidate. -/
def list_public_keys_with_paths (fs : FileSystem) (walletsDir : String) :
    List (String × String) :=
  if fsExists fs walletsDir then
    (sortedCandidates fs walletsDir).map (entryOf fs)
  else []

/-- `wallet_utils.load_all_wallets` (lines 75-123): empty result for a missing
directory, otherwise the keypairs of the candidates that load; a failing file
only prints a message, contributing nothing to the result. -/
def load_all_wallets (fs : FileSystem) (walletsDir : String) : List SolKeypair :=
  if fsExists fs walletsDir then
    (sortedCandidates fs walletsDir).filterMap
      (fun p => (load_keypair_from_json fs p).toOption)
  else []

/-- Models `Path.expanduser()` (wallet_utilsmac.py lines 37, 65, 87): a path
beginning with `~` has the tilde segment replaced using the home directory;
any other path is returned unchanged. -/
def expanduser (home p : String) : String :=
  if pyStartsWith p "~" then home ++ String.mk (p.data.drop 1) else p

/-- `wallet_utilsmac.load_keypair_from_json` (lines 22-54): expand the user
directory, check existence explicitly (raising `FileNotFoundError` with its
own message), then run the same parse/validate/build pipeline. -/
def load_keypair_from_json_mac (home : String) (fs : FileSystem) (jsonPath : String) :
    Except LoadError SolKeypair :=
  let path := expanduser home jsonPath
  match readFile fs path with
  | none => .error (.macFileNotFound path)
  | some c => decodeContent c path

/-- The loop body of the macOS `list_public_keys_with_paths` (lines 93-98). -/
def entryOfMac (home : String) (fs : FileSystem) (p : String) : String × String :=
  match load_keypair_from_json_mac home fs p with
  | .ok kp => (p, pubkeyStr kp)
  | .error e => (p, errEntry e)

/-- `wallet_utilsmac.list_public_keys_with_paths` (lines 80-100): like the
portable version but on the expanded directory and with the macOS loader. -/
def list_public_keys_with_paths_mac (home : String) (fs : FileSystem)
    (walletsDir : String) : List (String × String) :=
  if fsExists fs (expanduser home walletsDir) then
    (sortedCandidates fs (expanduser home walletsDir)).map (entryOfMac home fs)
  else []

/-!
## Helper lemmas
-/

theorem lex_cons_cons_iff {α : Type} {r : α → α → Prop} {a b : α} {as bs : List α} :
    List.Lex r (a :: as) (b :: bs) ↔ r a b ∨ (a = b ∧ List.Lex r as bs) := by
  constructor
  · intro h
    cases h with
    | cons h => exact Or.inr ⟨rfl, h⟩
    | rel h => exact Or.inl h
  · rintro (h | ⟨rfl, h⟩)
    · exact List.Lex.rel h
    · exact List.Lex.cons h

theorem lexLe_iff {α : Type} [DecidableEq α] [LinearOrder α] (lt : α → α → Bool)
    (hlt : ∀ a b : α, lt a b = true ↔ a < b) :
    ∀ x y : List α, lexLe lt x y = true ↔ ¬ List.Lex (· < ·) y x
  | [], y => iff_of_true rfl (List.Lex.not_nil_right _ _)
  | a :: as, [] => iff_of_false (by simp [lexLe]) (not_not_intro List.Lex.nil)
  | a :: as, b :: bs => by
    simp only [lexLe]
    rw [lex_cons_cons_iff]
    by_cases hab : a = b
    · subst hab
      rw [if_pos rfl, lexLe_iff lt hlt as bs]
      simp [lt_irrefl]
    · rw [if_neg hab, hlt a b]
      constructor
      · intro h hc
        rcases hc with hc | ⟨hc, _⟩
        · exact absurd h (asymm hc)
        · exact hab hc.symm
      · intro h
        rcases lt_trichotomy a b with hlt2 | heq | hgt
        · exact hlt2
        · exact absurd heq hab
        · exact absurd (Or.inl hgt) h

theorem charsLt_iff : ∀ x y : List Char, charsLt x y = true ↔ List.Lex (· < ·) x y
  | [], [] => iff_of_false (by simp [charsLt]) (List.Lex.not_nil_right _ _)
  | [], b :: bs => iff_of_true rfl List.Lex.nil
  | a :: as, [] => iff_of_false (by simp [charsLt]) (List.Lex.not_nil_right _ _)
  | a :: as, b :: bs => by
    simp only [charsLt]
    rw [lex_cons_cons_iff]
    by_cases hab : a = b
    · subst hab
      rw [if_pos rfl, charsLt_iff as bs]
      simp [lt_irrefl]
    · rw [if_neg hab]
      simp only [decide_eq_true_iff]
      constructor
      · exact fun h => Or.inl h
      · rintro (h | ⟨rfl, h⟩)
        · exact h
        · exact absurd rfl hab

/-- The executable component comparison agrees with Mathlib's linear order on
`List Char` (itself the lexicographic order on the characters). -/
theorem charsLt_iff_lt (x y : List Char) : charsLt x y = true ↔ x < y :=
  charsLt_iff x y

/-- The executable path comparison agrees with Mathlib's linear order on the
`/`-split component lists: `pathLe` really is Python's component-wise
lexicographic path order. -/
theorem pathLe_iff (a b : String) :
    pathLe a b = true ↔ splitOnChar '/' a.data ≤ splitOnChar '/' b.data := by
  rw [pathLe, lexLe_iff charsLt charsLt_iff_lt, ← not_lt]
  exact not_congr Iff.rfl

theorem pathLe_refl (p : String) : pathLe p p = true :=
  (pathLe_iff p p).mpr le_rfl

instance : IsTotal String (fun a b => pathLe a b = true) :=
  ⟨fun a b => by rw [pathLe_iff, pathLe_iff]; exact le_total _ _⟩

instance : IsTrans String (fun a b => pathLe a b = true) :=
  ⟨fun a b c h₁ h₂ => by
    rw [pathLe_iff] at h₁ h₂ ⊢
    exact le_trans h₁ h₂⟩

theorem isPrefixOf_append_self (l t : List Char) : l.isPrefixOf (l ++ t) = true := by
  induction l with
  | nil => simp [List.isPrefixOf]
  | cons a as ih => simp [List.isPrefixOf, ih]

theorem isErrMarker_errEntry (e : LoadError) : isErrMarker (errEntry e) = true := by
  rw [isErrMarker, pyStartsWith, errEntry, String.data_append]
  exact isPrefixOf_append_self _ _

theorem isErrMarker_pubkeyStr (kp : SolKeypair) : isErrMarker (pubkeyStr kp) = false := by
  rw [isErrMarker, pyStartsWith, pubkeyStr, String.data_append]
  rfl

theorem entryOf_fst (fs : FileSystem) (p : String) : (entryOf fs p).1 = p := by
  rw [entryOf]
  cases load_keypair_from_json fs p <;> rfl

theorem isErrMarker_entryOf (fs : FileSystem) (p : String) :
    isErrMarker (entryOf fs p).2 = !(loadOk fs p) := by
  rw [entryOf, loadOk]
  cases load_keypair_from_json fs p with
  | ok kp => exact isErrMarker_pubkeyStr kp
  | error e => exact isErrMarker_errEntry e

theorem map_fst_list (fs : FileSystem) (d : String) :
    (list_public_keys_with_paths fs d).map Prod.fst =
      if fsExists fs d then sortedCandidates fs d else [] := by
  rw [list_public_keys_with_paths]
  split
  · rw [List.map_map]
    exact (List.map_congr_left fun p _ => entryOf_fst fs p).trans (List.map_id _)
  · rfl

theorem listEntries_eq (fs : FileSystem) (d : String) (h : fsExists fs d = true) :
    list_public_keys_with_paths fs d = (sortedCandidates fs d).map (entryOf fs) := by
  rw [list_public_keys_with_paths, if_pos h]

theorem countP_bool_split {α : Type} (q : α → Bool) (l : List α) :
    l.countP (fun a => !(q a)) + l.countP q = l.length := by
  induction l with
  | nil => rfl
  | cons a l ih =>
    rw [List.countP_cons, List.countP_cons, List.length_cons]
    cases h : q a <;> simp [h] <;> omega

theorem countP_entries (fs : FileSystem) (d : String) (q : String × String → Bool)
    (h : fsExists fs d = true) :
    (list_public_keys_with_paths fs d).countP q =
      (candidatePaths fs d).countP (fun p => q (entryOf fs p)) := by
  rw [listEntries_eq fs d h, List.countP_map]
  exact (List.perm_insertionSort _ _).countP_eq _

theorem load_ok_of_valid64 (fs : FileSystem) (p : String) (raw : List Int)
    (hread : readFile fs p = some (.array raw))
    (hrange : raw.all (fun i => 0 ≤ i && i < 256) = true)
    (hlen : raw.length = 64) :
    load_keypair_from_json fs p = .ok ⟨raw.map Int.toNat⟩ := by
  simp [load_keypair_from_json, hread, decodeContent, hrange, keypairFromBytes,
    List.length_map, hlen]

theorem isPrefixOf_eq_append :
    ∀ {x y : List Char}, x.isPrefixOf y = true → ∃ t, y = x ++ t
  | [], y, _ => ⟨y, rfl⟩
  | a :: as, [], h => by simp [List.isPrefixOf] at h
  | a :: as, b :: bs, h => by
    simp only [List.isPrefixOf, Bool.and_eq_true, beq_iff_eq] at h
    obtain ⟨t, ht⟩ := isPrefixOf_eq_append h.2
    exact ⟨t, by rw [h.1, ht]; rfl⟩

theorem splitOnChar_ne_nil (sep : Char) : ∀ l : List Char, splitOnChar sep l ≠ []
  | [] => by simp [splitOnChar]
  | c :: cs => by
    rw [splitOnChar]
    split
    · simp
    · split <;> simp

theorem splitOnChar_cons_of_eq (sep c : Char) (cs : List Char) {h : List Char}
    {t : List (List Char)} (hs : splitOnChar sep cs = h :: t) :
    splitOnChar sep (c :: cs) =
      if c = sep then [] :: h :: t else (c :: h) :: t := by
  rw [splitOnChar, hs]

theorem splitOnChar_append (sep : Char) : ∀ xs ys : List Char,
    splitOnChar sep (xs ++ sep :: ys) = splitOnChar sep xs ++ splitOnChar sep ys
  | [], ys => by
    rcases hs : splitOnChar sep ys with _ | ⟨h, t⟩
    · exact absurd hs (splitOnChar_ne_nil sep ys)
    · rw [List.nil_append, splitOnChar_cons_of_eq sep sep ys hs, if_pos rfl]
      simp [splitOnChar, hs]
  | x :: xs, ys => by
    have ih := splitOnChar_append sep xs ys
    rcases hx : splitOnChar sep xs with _ | ⟨h, t⟩
    · exact absurd hx (splitOnChar_ne_nil sep xs)
    · rw [hx] at ih
      rw [List.cons_append,
        splitOnChar_cons_of_eq sep x (xs ++ sep :: ys) (ih.trans (List.cons_append h t _)),
        splitOnChar_cons_of_eq sep x xs hx]
      split <;> simp

theorem getLastD_append_right {α : Type} (l₁ : List α) {l₂ : List α} (h : l₂ ≠ [])
    (a : α) : (l₁ ++ l₂).getLastD a = l₂.getLastD a := by
  rw [List.getLastD_eq_getLast?, List.getLastD_eq_getLast?, List.getLast?_append]
  rcases hl : l₂.getLast? with _ | b
  · exact absurd (List.getLast?_eq_none_iff.mp hl) h
  · rfl

/-- The file-name component of a path string: the part after the last `/`. -/
def fileName (p : String) : String :=
  String.mk ((splitOnChar '/' p.data).getLastD [])

theorem candidate_decomp {d p : String} (hc : isCandidate d p = true) :
    ∃ t, p.data = d.data ++ '/' :: t ∧
      jsonName ((splitOnChar '/' t).getLastD []) = true := by
  rw [isCandidate, Bool.and_eq_true] at hc
  obtain ⟨t, ht⟩ := isPrefixOf_eq_append hc.1
  have hdrop : p.data.drop (d.data.length + 1) = t := by
    have : d.data ++ '/' :: t = (d.data ++ ['/']) ++ t := by simp
    rw [ht, List.append_assoc] at *
    calc (d.data ++ '/' :: t).drop (d.data.length + 1)
        = ((d.data ++ ['/']) ++ t).drop (d.data ++ ['/']).length := by simp
      _ = t := List.drop_left _ _
  rw [hdrop] at hc
  exact ⟨t, by rw [ht]; simp, hc.2⟩

theorem fileName_of_candidate {d p : String} (hc : isCandidate d p = true) :
    pyEndsWith (fileName p) ".json" = true := by
  obtain ⟨t, ht, hjson⟩ := candidate_decomp hc
  have hsplit : splitOnChar '/' p.data =
      splitOnChar '/' d.data ++ splitOnChar '/' t := by
    rw [ht]
    exact splitOnChar_append '/' d.data t
  rw [fileName, hsplit, getLastD_append_right _ (splitOnChar_ne_nil '/' t)]
  exact hjson

theorem candidates_json (fs : FileSystem) (d q : String)
    (hq : q ∈ candidatePaths fs d) : pyEndsWith (fileName q) ".json" = true := by
  rw [candidatePaths] at hq
  exact fileName_of_candidate (List.mem_filter.mp hq).2

theorem sorted_pathLe_list_paths (fs : FileSystem) (d : String) :
    List.Sorted (fun a b => pathLe a b = true)
      ((list_public_keys_with_paths fs d).map Prod.fst) := by
  rw [map_fst_list]
  split
  · exact List.sorted_insertionSort _ _
  · exact List.sorted_nil

theorem find?_fst_min {l : List (String × String)} {q : String × String → Bool}
    {e : String × String}
    (hs : List.Sorted (fun a b => pathLe a b = true) (l.map Prod.fst))
    (he : l.find? q = some e) :
    ∀ x ∈ l, q x = true → pathLe e.1 x.1 = true := by
  induction l with
  | nil => cases he
  | cons a l ih =>
    rw [List.map_cons, List.sorted_cons] at hs
    by_cases ha : q a = true
    · rw [List.find?_cons_of_pos l ha] at he
      cases he
      intro x hx _
      rcases List.mem_cons.mp hx with rfl | hx
      · exact pathLe_refl _
      · exact hs.1 x.1 (List.mem_map_of_mem Prod.fst hx)
    · rw [List.find?_cons_of_neg l ha] at he
      intro x hx hqx
      rcases List.mem_cons.mp hx with rfl | hx
      · exact absurd hqx ha
      · exact ih hs.2 he x hx hqx

/-- Modelled from the spec: the repository implements no keystore lookup by
public key (src/ holds only the entry-list builders), and §4.2 specifies
`get(pubkey)` as returning "the first successfully loaded match in scan
order".  On the ordered entry list this is the first entry that carries a
loaded public key (not an error marker) equal to the query. -/
def keystoreGet (entries : List (String × String)) (pk : String) :
    Option (String × String) :=
  entries.find? (fun e => !(isErrMarker e.2) && e.2 == pk)

theorem expanduser_eq {p : String} (home : String)
    (hp : pyStartsWith p "~" = false) : expanduser home p = p := by
  rw [expanduser, hp]
  rfl

theorem readFile_isSome_of_mem_candidates {fs : FileSystem} {d p : String}
    (hp : p ∈ candidatePaths fs d) : (readFile fs p).isSome = true := by
  rw [candidatePaths] at hp
  obtain ⟨hmem, _⟩ := List.mem_filter.mp hp
  obtain ⟨f, hf, hfp⟩ := List.mem_map.mp hmem
  have hfind : (List.find? (fun f => f.1 == p) fs.files).isSome = true :=
    List.find?_isSome.mpr ⟨f, hf, by rw [hfp]; exact beq_self_eq_true p⟩
  obtain ⟨x, hx⟩ := Option.isSome_iff_exists.mp hfind
  rw [readFile, hx]
  rfl

theorem not_tilde_of_candidate {d p : String} (hd : pyStartsWith d "~" = false)
    (hc : isCandidate d p = true) : pyStartsWith p "~" = false := by
  rw [isCandidate, Bool.and_eq_true] at hc
  obtain ⟨t, ht⟩ := isPrefixOf_eq_append hc.1
  rw [pyStartsWith] at hd ⊢
  rcases hdd : d.data with _ | ⟨c, cs⟩
  · rw [ht, hdd]
    rfl
  · rw [hdd] at ht
    rw [ht]
    rw [hdd] at hd
    simp only [List.isPrefixOf, Bool.and_eq_true] at hd ⊢
    exact hd

theorem loadMac_eq (home : String) {fs : FileSystem} {p : String}
    (hnp : pyStartsWith p "~" = false) (hsome : (readFile fs p).isSome = true) :
    load_keypair_from_json_mac home fs p = load_keypair_from_json fs p := by
  rw [load_keypair_from_json_mac, load_keypair_from_json, expanduser_eq home hnp]
  obtain ⟨c, hc⟩ := Option.isSome_iff_exists.mp hsome
  rw [hc]

theorem entryOfMac_eq (home : String) {fs : FileSystem} {d p : String}
    (hd : pyStartsWith d "~" = false) (hp : p ∈ candidatePaths fs d) :
    entryOfMac home fs p = entryOf fs p := by
  have hcand : isCandidate d p = true := by
    rw [candidatePaths] at hp
    exact (List.mem_filter.mp hp).2
  rw [entryOfMac, entryOf,
    loadMac_eq home (not_tilde_of_candidate hd hcand)
      (readFile_isSome_of_mem_candidates hp)]

/-!
## Concrete filesystem states used by the witnesses

`fsDemo` is exactly the spec's §8 scenario: `a.json` holds 64 valid bytes,
`b.json` holds the JSON string `"not an array"`, `c.json` holds 32 valid
bytes.
-/

/-- A JSON array of 64 integer values, each in range. -/
def demo64 : List Int :=
  (List.range 64).map (fun n => (n : Int))

/-- A JSON array of 32 integer values, each in range. -/
def demo32 : List Int :=
  (List.range 32).map (fun n => (n : Int))

def fsDemo : FileSystem :=
  ⟨["w"], [("w/a.json", .array demo64), ("w/b.json", .notArray),
    ("w/c.json", .array demo32)]⟩

/-- Two distinct files with identical 64-byte content, hence the same
derived public key. -/
def fsDup : FileSystem :=
  ⟨["w"], [("w/dup2.json", .array demo64), ("w/dup1.json", .array demo64)]⟩

/-- A file whose array has length 5, neither 32 nor 64. -/
def fsLen5 : FileSystem :=
  ⟨["w"], [("w/short.json", .array [1, 2, 3, 4, 5])]⟩

/-- The empty filesystem: no directories, no files. -/
def fsEmpty : FileSystem :=
  ⟨[], []⟩

/-!
## The claims
-/

/-- Claim C3: for every input that parses to a byte sequence whose length is
neither 32 nor 64, `load_keypair_from_json` fails with the invalid-length
error carrying the actual length, and no keypair is produced. -/
theorem C3_invalid_length (fs : FileSystem) (p : String) (raw : List Int)
    (hread : readFile fs p = some (.array raw))
    (hrange : raw.all (fun i => 0 ≤ i && i < 256) = true)
    (h32 : raw.length ≠ 32) (h64 : raw.length ≠ 64) :
    load_keypair_from_json fs p = .error (.invalidLength raw.length p) := by
  simp [load_keypair_from_json, hread, decodeContent, hrange, List.length_map,
    h32, h64]

/-- Witness for C3 on a concrete 5-byte file. -/
theorem C3_invalid_length_witness :
    load_keypair_from_json fsLen5 "w/short.json" =
      .error (.invalidLength 5 "w/short.json") :=
  C3_invalid_length fsLen5 "w/short.json" [1, 2, 3, 4, 5] rfl (by decide)
    (by decide) (by decide)

/-- Claim C4: for every path that does not exist on the filesystem, both
directory-load operations return an empty list (and, the embedding being
total, raise no error). -/
theorem C4_missing_directory (fs : FileSystem) (d : String)
    (h : fsExists fs d = false) :
    list_public_keys_with_paths fs d = [] ∧ load_all_wallets fs d = [] := by
  rw [list_public_keys_with_paths, load_all_wallets, h]
  exact ⟨rfl, rfl⟩

/-- Witness for C4 on the empty filesystem. -/
theorem C4_missing_directory_witness :
    list_public_keys_with_paths fsEmpty "wallets" = [] ∧
      load_all_wallets fsEmpty "wallets" = [] :=
  C4_missing_directory fsEmpty "wallets" (by decide)

/-- Claim C6: decode plus public-key derivation is a pure, deterministic function of
the file bytes: any two loads of files with identical valid 64-byte content
succeed and yield the same public-key string (the embedding is a pure
function, so there is no other state to affect). -/
theorem C6_deterministic_derivation (fs₁ fs₂ : FileSystem) (p₁ p₂ : String)
    (raw : List Int)
    (h₁ : readFile fs₁ p₁ = some (.array raw))
    (h₂ : readFile fs₂ p₂ = some (.array raw))
    (hrange : raw.all (fun i => 0 ≤ i && i < 256) = true)
    (hlen : raw.length = 64) :
    ∃ kp₁ kp₂, load_keypair_from_json fs₁ p₁ = .ok kp₁ ∧
      load_keypair_from_json fs₂ p₂ = .ok kp₂ ∧ pubkeyStr kp₁ = pubkeyStr kp₂ :=
  ⟨⟨raw.map Int.toNat⟩, ⟨raw.map Int.toNat⟩,
    load_ok_of_valid64 fs₁ p₁ raw h₁ hrange hlen,
    load_ok_of_valid64 fs₂ p₂ raw h₂ hrange hlen, rfl⟩

/-- Witness for C6: the duplicate-content filesystem against the demo one. -/
theorem C6_deterministic_derivation_witness :
    ∃ kp₁ kp₂, load_keypair_from_json fsDup "w/dup1.json" = .ok kp₁ ∧
      load_keypair_from_json fsDemo "w/a.json" = .ok kp₂ ∧
      pubkeyStr kp₁ = pubkeyStr kp₂ :=
  C6_deterministic_derivation fsDup fsDemo "w/dup1.json" "w/a.json" demo64 rfl
    rfl (by decide) (by decide)

/-- Claim C1: over a directory with N candidate files of which K load successfully,
the listing has exactly N entries; K of them carry a derived public key (their
value is not an error marker) and the remaining N − K carry an error marker.
The embedding returns a value on every filesystem, which is the model of
"never raises past the directory-load boundary". -/
theorem C1_partition (fs : FileSystem) (d : String) (h : fsExists fs d = true) :
    (list_public_keys_with_paths fs d).length = (candidatePaths fs d).length ∧
      (list_public_keys_with_paths fs d).countP (fun e => !(isErrMarker e.2)) =
        (candidatePaths fs d).countP (loadOk fs) ∧
      (list_public_keys_with_paths fs d).countP (fun e => !(isErrMarker e.2)) +
          (list_public_keys_with_paths fs d).countP (fun e => isErrMarker e.2) =
        (candidatePaths fs d).length := by
  have hcount : ∀ q : String × String → Bool,
      (list_public_keys_with_paths fs d).countP q =
        (candidatePaths fs d).countP (fun p => q (entryOf fs p)) :=
    fun q => countP_entries fs d q h
  have hloaded : (list_public_keys_with_paths fs d).countP
      (fun e => !(isErrMarker e.2)) = (candidatePaths fs d).countP (loadOk fs) := by
    rw [hcount]
    exact List.countP_congr fun p _ => by
      rw [isErrMarker_entryOf, Bool.not_not]
  have hlen : (list_public_keys_with_paths fs d).length =
      (candidatePaths fs d).length := by
    rw [listEntries_eq fs d h, List.length_map, sortedCandidates,
      List.length_insertionSort]
  exact ⟨hlen, hloaded,
    (countP_bool_split (fun e => isErrMarker e.2)
      (list_public_keys_with_paths fs d)).trans hlen⟩

/-- Witness for C1 on the three-file demo directory (N = 3, K = 1). -/
theorem C1_partition_witness :
    fsExists fsDemo "w" = true ∧
      ((list_public_keys_with_paths fsDemo "w").length =
          (candidatePaths fsDemo "w").length ∧
        (list_public_keys_with_paths fsDemo "w").countP
            (fun e => !(isErrMarker e.2)) =
          (candidatePaths fsDemo "w").countP (loadOk fsDemo) ∧
        (list_public_keys_with_paths fsDemo "w").countP
              (fun e => !(isErrMarker e.2)) +
            (list_public_keys_with_paths fsDemo "w").countP
              (fun e => isErrMarker e.2) =
          (candidatePaths fsDemo "w").length) :=
  ⟨by decide, C1_partition fsDemo "w" (by decide)⟩

/-- Claim C5: enumeration is recursive over the directory and in
lexicographic path order, hence reproducible.  `pathlib` paths compare
component-wise, so the result paths are sorted under the component-wise path
order `pathLe` — equivalently, their `/`-split part lists are sorted under
the lexicographic list order — and the listing equals a deterministic
function of the directory contents (two loads of the same state are the same
function value in this pure embedding). -/
theorem C5_lexicographic_order (fs : FileSystem) (d : String) :
    List.Sorted (fun a b => pathLe a b = true)
        ((list_public_keys_with_paths fs d).map Prod.fst) ∧
      List.Sorted (· ≤ ·)
        (((list_public_keys_with_paths fs d).map Prod.fst).map
          (fun p => splitOnChar '/' p.data)) ∧
      (list_public_keys_with_paths fs d).map Prod.fst =
        (if fsExists fs d then sortedCandidates fs d else []) := by
  refine ⟨sorted_pathLe_list_paths fs d, ?_, map_fst_list fs d⟩
  exact List.pairwise_map.mpr
    ((sorted_pathLe_list_paths fs d).imp fun h => (pathLe_iff _ _).mp h)

/-- Claim C8: the function `load_all_wallets` returns exactly the keypairs of the paths listed by
`list_public_keys_with_paths`, in the listing's order, keeping those that
load; and an entry carries a non-error value precisely when its file loads,
so the two functions agree on which files are well-formed. -/
theorem C8_load_all_agrees (fs : FileSystem) (d : String) :
    load_all_wallets fs d =
        ((list_public_keys_with_paths fs d).map Prod.fst).filterMap
          (fun p => (load_keypair_from_json fs p).toOption) ∧
      (list_public_keys_with_paths fs d).filter (fun e => !(isErrMarker e.2)) =
        (list_public_keys_with_paths fs d).filter (fun e => loadOk fs e.1) := by
  constructor
  · rw [map_fst_list, load_all_wallets]
    split <;> rfl
  · rw [list_public_keys_with_paths]
    split
    · rw [List.filter_map, List.filter_map]
      congr 1
      refine List.filter_congr fun p _ => ?_
      show (!(isErrMarker (entryOf fs p).2)) = loadOk fs (entryOf fs p).1
      rw [isErrMarker_entryOf, Bool.not_not, entryOf_fst]
    · rfl

/-- Claim C9: only files matching the glob `*.json` under the directory become
candidates: a path whose file name does not end in `.json` never appears in
the result, whatever its content, and every path that does appear has the
`.json` extension. -/
theorem C9_json_extension_only (fs : FileSystem) (d p : String)
    (hp : pyEndsWith (fileName p) ".json" = false) :
    p ∉ (list_public_keys_with_paths fs d).map Prod.fst ∧
      ∀ q ∈ (list_public_keys_with_paths fs d).map Prod.fst,
        pyEndsWith (fileName q) ".json" = true := by
  have hmem : ∀ q ∈ (list_public_keys_with_paths fs d).map Prod.fst,
      q ∈ candidatePaths fs d := by
    intro q hq
    rw [map_fst_list] at hq
    rcases hex : fsExists fs d with _ | _
    · rw [hex] at hq
      cases hq
    · rw [hex] at hq
      simp only [if_true] at hq
      exact (List.mem_insertionSort _).mp hq
  refine ⟨fun hmem₁ => ?_, fun q hq => candidates_json fs d q (hmem q hq)⟩
  rw [candidates_json fs d p (hmem p hmem₁)] at hp
  cases hp

/-- Witness for C9 on a directory holding a `.json` wallet and a `.txt`
file with wallet-shaped content. -/
def fsMixed : FileSystem :=
  ⟨["w"], [("w/a.json", .array demo64), ("w/notes.txt", .array demo64)]⟩

theorem C9_json_extension_only_witness :
    "w/notes.txt" ∉ (list_public_keys_with_paths fsMixed "w").map Prod.fst ∧
      ∀ q ∈ (list_public_keys_with_paths fsMixed "w").map Prod.fst,
        pyEndsWith (fileName q) ".json" = true :=
  C9_json_extension_only fsMixed "w" "w/notes.txt" (by decide)

/-- Claim C2, evaluated on the code on the spec's concrete scenario (`a.json` = 64
valid bytes, `b.json` = the JSON string `"not an array"`, `c.json` = 32 valid
bytes).  The listing has 3 entries, but only `a.json` carries a derived
public key: `c.json` fails as well, because solders `Keypair.from_bytes`
rejects its 32 bytes, although the length check just before accepted them.
The claim (2 loaded, 1 failed) therefore does not hold of the code. -/
theorem C2_scenario_evaluation :
    list_public_keys_with_paths fsDemo "w" =
        [("w/a.json", pubkeyStr ⟨List.range 64⟩),
         ("w/b.json", errEntry (.invalidFormat "w/b.json")),
         ("w/c.json", errEntry (.fromBytesError "w/c.json"))] ∧
      (list_public_keys_with_paths fsDemo "w").countP
          (fun e => !(isErrMarker e.2)) = 1 ∧
      (list_public_keys_with_paths fsDemo "w").countP
          (fun e => isErrMarker e.2) = 2 ∧
      loadOk fsDemo "w/c.json" = false :=
  ⟨by decide, by decide, by decide, by decide⟩

/-- Claim C7: when two candidate files load to the same public key, both appear as
entries of the ordered result under their own paths, and the keystore lookup
by that public key (modelled from the spec, see `keystoreGet`) returns a
successfully loaded entry whose path precedes both in the component-wise
scan order — the first match in scan order, never a later entry overwriting
an earlier one. -/
theorem C7_duplicate_pubkeys (fs : FileSystem) (d p₁ p₂ : String)
    (kp₁ kp₂ : SolKeypair)
    (hex : fsExists fs d = true)
    (hc₁ : p₁ ∈ candidatePaths fs d) (hc₂ : p₂ ∈ candidatePaths fs d)
    (_hne : p₁ ≠ p₂)
    (h₁ : load_keypair_from_json fs p₁ = .ok kp₁)
    (h₂ : load_keypair_from_json fs p₂ = .ok kp₂)
    (hpk : pubkeyStr kp₁ = pubkeyStr kp₂) :
    (p₁, pubkeyStr kp₁) ∈ list_public_keys_with_paths fs d ∧
      (p₂, pubkeyStr kp₂) ∈ list_public_keys_with_paths fs d ∧
      ∃ q, keystoreGet (list_public_keys_with_paths fs d) (pubkeyStr kp₁) =
          some (q, pubkeyStr kp₁) ∧ pathLe q p₁ = true ∧ pathLe q p₂ = true := by
  have e₁ : entryOf fs p₁ = (p₁, pubkeyStr kp₁) := by rw [entryOf, h₁]
  have e₂ : entryOf fs p₂ = (p₂, pubkeyStr kp₂) := by rw [entryOf, h₂]
  have hm₁ : (p₁, pubkeyStr kp₁) ∈ list_public_keys_with_paths fs d := by
    rw [listEntries_eq fs d hex, ← e₁]
    exact List.mem_map_of_mem _ ((List.mem_insertionSort _).mpr hc₁)
  have hm₂ : (p₂, pubkeyStr kp₂) ∈ list_public_keys_with_paths fs d := by
    rw [listEntries_eq fs d hex, ← e₂]
    exact List.mem_map_of_mem _ ((List.mem_insertionSort _).mpr hc₂)
  have hq₁ : (!(isErrMarker (p₁, pubkeyStr kp₁).2) &&
      ((p₁, pubkeyStr kp₁).2 == pubkeyStr kp₁)) = true := by
    rw [isErrMarker_pubkeyStr]
    simp
  have hq₂ : (!(isErrMarker (p₂, pubkeyStr kp₂).2) &&
      ((p₂, pubkeyStr kp₂).2 == pubkeyStr kp₁)) = true := by
    rw [← hpk, isErrMarker_pubkeyStr]
    simp
  have hfind : ((list_public_keys_with_paths fs d).find?
      (fun e => !(isErrMarker e.2) && e.2 == pubkeyStr kp₁)).isSome = true :=
    List.find?_isSome.mpr ⟨(p₁, pubkeyStr kp₁), hm₁, hq₁⟩
  obtain ⟨e, he⟩ := Option.isSome_iff_exists.mp hfind
  have hpe := List.find?_some he
  rw [Bool.and_eq_true] at hpe
  have he2 : e.2 = pubkeyStr kp₁ := eq_of_beq hpe.2
  refine ⟨hm₁, hm₂, e.1, ?_, ?_, ?_⟩
  · rw [keystoreGet, he, ← he2]
  · exact find?_fst_min (sorted_pathLe_list_paths fs d) he (p₁, pubkeyStr kp₁)
      hm₁ hq₁
  · exact find?_fst_min (sorted_pathLe_list_paths fs d) he (p₂, pubkeyStr kp₂)
      hm₂ hq₂

/-- Witness for C7: two files with identical content in `fsDup`. -/
theorem C7_duplicate_pubkeys_witness :
    ("w/dup1.json", pubkeyStr ⟨List.range 64⟩) ∈
        list_public_keys_with_paths fsDup "w" ∧
      ("w/dup2.json", pubkeyStr ⟨List.range 64⟩) ∈
        list_public_keys_with_paths fsDup "w" ∧
      ∃ q, keystoreGet (list_public_keys_with_paths fsDup "w")
          (pubkeyStr ⟨List.range 64⟩) = some (q, pubkeyStr ⟨List.range 64⟩) ∧
        pathLe q "w/dup1.json" = true ∧ pathLe q "w/dup2.json" = true :=
  C7_duplicate_pubkeys fsDup "w" "w/dup1.json" "w/dup2.json" ⟨List.range 64⟩
    ⟨List.range 64⟩ (by decide) (by decide) (by decide) (by decide) rfl rfl rfl

/-- Claim C10: on any directory path that does not begin with `~`, the macOS
module's `list_public_keys_with_paths` returns the same entry list as the
portable module's, over any filesystem state. -/
theorem C10_mac_equivalent (home : String) (fs : FileSystem) (d : String)
    (hd : pyStartsWith d "~" = false) :
    list_public_keys_with_paths_mac home fs d =
      list_public_keys_with_paths fs d := by
  rw [list_public_keys_with_paths_mac, list_public_keys_with_paths,
    expanduser_eq home hd]
  split
  · exact List.map_congr_left fun p hp =>
      entryOfMac_eq home hd ((List.mem_insertionSort _).mp hp)
  · rfl

/-- Witness for C10 on the demo directory. -/
theorem C10_mac_equivalent_witness :
    list_public_keys_with_paths_mac "/Users/u" fsDemo "w" =
      list_public_keys_with_paths fsDemo "w" :=
  C10_mac_equivalent "/Users/u" fsDemo "w" (by decide)

end NewBot
